import Mathlib

/-!
# bazel-gazelle `repo/modules.go`: module versions to repository rules

A shallow embedding of `toRepoRule`, `importRepoRulesModules` and
`copyGoModToTemp`.

Go strings are modelled by `String` and inspected through their character
list (`String.data`).  Module versions reach this code through `encoding/json`,
which always yields valid UTF-8, and every literal the code compares against is
ASCII, so working on characters agrees with Go's byte-wise `strings` functions
and rune-wise `regexp` functions.
-/

namespace Gazelle

/-! ## Data model -/

/-- The Go `type module struct { Path, Version string; Main bool }`. -/
structure module where
  Path : String
  Version : String
  Main : Bool
  deriving DecidableEq, Repr

/-- The Go `Repo` struct of package `repo`, restricted to the four fields that
`toRepoRule` sets; its declaration lives in another file of the package and
every other field keeps its zero value. -/
structure Repo where
  Name : String
  GoPrefix : String
  Commit : String
  Tag : String
  deriving DecidableEq, Repr

/-! ## The regular expression `regexMixedVersioning`

`^(.*?)[-.]((?:0\.|)[0-9]{14})-([a-fA-F0-9]{12})$`, executed with the
leftmost-first (Perl-like) preference order that Go's `regexp` implements. -/

/-- The class `[0-9]`. -/
def isDec (c : Char) : Bool := decide ('0' ≤ c) && decide (c ≤ '9')

/-- The class `[a-fA-F0-9]`. -/
def isHex (c : Char) : Bool :=
  (decide ('a' ≤ c) && decide (c ≤ 'f')) ||
  (decide ('A' ≤ c) && decide (c ≤ 'F')) ||
  (decide ('0' ≤ c) && decide (c ≤ '9'))

/-- The class `.` with the `s` flag off: any character but a line feed. -/
def isDot (c : Char) : Bool := decide (c ≠ '\n')

/-- The class `[-.]`. -/
def isSep (c : Char) : Bool := decide (c = '-') || decide (c = '.')

/-- The part `((?:0\.|)[0-9]{14})-([a-fA-F0-9]{12})$` with the alternation
`(?:0\.|)` resolved to the literal `alt`; on success the texts of groups 2
and 3. -/
def matchStamp (alt s : List Char) : Option (List Char × List Char) :=
  if alt.isPrefixOf s then
    let r := s.drop alt.length
    if (r.take 14).length = 14 ∧ (r.take 14).all isDec = true then
      match r.drop 14 with
      | '-' :: h =>
        if h.length = 12 ∧ h.all isHex = true then some (alt ++ r.take 14, h) else none
      | _ => none
    else none
  else none

/-- The part `[-.]((?:0\.|)[0-9]{14})-([a-fA-F0-9]{12})$`: the alternative
`0\.` is tried before the empty one. -/
def matchTail : List Char → Option (List Char × List Char)
  | [] => none
  | c :: s =>
    if isSep c = true then
      match matchStamp ['0', '.'] s with
      | some g => some g
      | none => matchStamp [] s
    else none

/-- The whole anchored pattern, `pre` being what the lazy group `(.*?)` has
consumed so far: the rest of the pattern is tried first, and only when it fails
does the group take one more character. The result lists the whole match and
groups 1 to 3. -/
def matchLazy (pre : List Char) : List Char → Option (List (List Char))
  | [] => none
  | c :: s =>
    match matchTail (c :: s) with
    | some (g2, g3) => some [pre ++ c :: s, pre, g2, g3]
    | none => if isDot c = true then matchLazy (pre ++ [c]) s else none

/-- The call `regexMixedVersioning.FindStringSubmatch(s)`; `none` is Go's `nil`. -/
def FindStringSubmatch (s : String) : Option (List String) :=
  (matchLazy [] s.data).map (List.map String.mk)

/-! ## `strings.TrimSuffix` -/

/-- The literal `"+incompatible"`. -/
def incompatible : String := "+incompatible"

/-- The Go `strings.HasSuffix`. -/
def HasSuffix (s suffix : String) : Bool :=
  decide (suffix.data.length ≤ s.data.length) &&
  decide (s.data.drop (s.data.length - suffix.data.length) = suffix.data)

/-- The Go `strings.TrimSuffix`: `s` without the trailing `suffix`, or `s`
itself when it does not end in `suffix`. -/
def TrimSuffix (s suffix : String) : String :=
  if HasSuffix s suffix = true then
    String.mk (s.data.take (s.data.length - suffix.data.length))
  else s

/-! ## `toRepoRule` -/

/-- The function `toRepoRule`. `ImportPathToBazelRepoName` belongs to package
`label` and is taken as a parameter. -/
def toRepoRule (ImportPathToBazelRepoName : String → String) (mod : module) : Repo :=
  let (tag, commit) :=
    match FindStringSubmatch mod.Version with
    | some gr => ("", gr.getD 3 "")
    | none => (TrimSuffix mod.Version incompatible, "")
  { Name := ImportPathToBazelRepoName mod.Path
    GoPrefix := mod.Path
    Commit := commit
    Tag := tag }

/-- The last `n` characters of a string. -/
def lastChars (n : Nat) (s : String) : String :=
  String.mk (s.data.drop (s.data.length - n))

/-! ## The outside world: errors, the filesystem, the resolver, the decoder

The packages `os`, `io`, `io/ioutil`, `encoding/json` and the `go` tool are not
part of the repository. Their calls are modelled over an explicit filesystem
state; whether a fallible call fails is decided by the world the code runs in. -/

/-- A Go `error` value. -/
structure GoError where
  msg : String
  deriving DecidableEq, Repr

/-- A Go `[]byte`. -/
abbrev Bytes := List UInt8

/-- What a path names: a regular file with its content, or a directory with
its entries (name and content). -/
inductive Node where
  | file (content : Bytes)
  | dir (entries : List (String × Bytes))
  deriving DecidableEq, Repr

/-- The filesystem state: the nodes that exist, by path. -/
structure FS where
  nodes : List (String × Node)
  deriving DecidableEq, Repr

/-- The node a path names, if the path exists. -/
def FS.lookup (fs : FS) (path : String) : Option Node := List.lookup path fs.nodes

/-- Whether a path exists. -/
def FS.has (fs : FS) (path : String) : Bool := (fs.lookup path).isSome

/-- The state without the path. -/
def FS.erase (fs : FS) (path : String) : FS := ⟨fs.nodes.filter fun e => e.1 != path⟩

/-- Whether `p` lies strictly beneath the directory `path`, that is, starts with
`path` followed by the separator `/`. -/
def beneath (path p : String) : Bool := (path.data ++ ['/']).isPrefixOf p.data

/-- Whether `p` is `path` itself or lies beneath it. -/
def isUnder (path p : String) : Bool := p == path || beneath path p

/-- The state without the path and without everything beneath it. -/
def FS.eraseTree (fs : FS) (path : String) : FS :=
  ⟨fs.nodes.filter fun e => !isUnder path e.1⟩

/-- The state with the path naming the node. -/
def FS.set (fs : FS) (path : String) (n : Node) : FS := ⟨(path, n) :: (fs.erase path).nodes⟩

/-- The outcomes that the operating system decides during one call of
`importRepoRulesModules`: for each fallible step the error it fails with, if it
fails, and the name `ioutil.TempDir` picks for the new directory. The removals
are fallible steps too: the code drops their errors, the system still decides
whether they take effect. One call runs at most one removal of each kind. -/
structure Sys where
  openErr : Option GoError
  tempName : String
  tempDirErr : Option GoError
  createErr : Option GoError
  copyErr : Option (Nat × GoError)
  closeErr : Option GoError
  removeErr : Option GoError
  removeAllErr : Option GoError

/-- The call `os.Open(name)`: the handle gives access to the node. It fails when
the path does not exist or when the system refuses. -/
def osOpen (sys : Sys) (fs : FS) (name : String) : Except GoError Node :=
  match sys.openErr with
  | some e => .error e
  | none =>
    match fs.lookup name with
    | some n => .ok n
    | none => .error ⟨"open: no such file or directory"⟩

/-- The call `ioutil.TempDir("", "gazelle-temp-gomod")`: makes a new, empty
directory under a name that did not exist, and returns the name. -/
def ioutilTempDir (sys : Sys) (fs : FS) : Except GoError String × FS :=
  match sys.tempDirErr with
  | some e => (.error e, fs)
  | none =>
    if fs.has sys.tempName = true then (.error ⟨"mkdir: file exists"⟩, fs)
    else (.ok sys.tempName, fs.set sys.tempName (.dir []))

/-- The call `os.Create(filepath.Join(dir, name))`: an empty file `name` in the
directory `dir`, any earlier file of that name being truncated. -/
def osCreate (sys : Sys) (fs : FS) (dir name : String) : Option GoError × FS :=
  match sys.createErr with
  | some e => (some e, fs)
  | none =>
    match fs.lookup dir with
    | some (.dir es) => (none, fs.set dir (.dir ((name, []) :: es.filter fun e => e.1 != name)))
    | _ => (some ⟨"open: no such file or directory"⟩, fs)

/-- Writing `bs` as the content of the file `name` of directory `dir`. -/
def writeFile (fs : FS) (dir name : String) (bs : Bytes) : FS :=
  match fs.lookup dir with
  | some (.dir es) => fs.set dir (.dir (es.map fun e => if e.1 = name then (name, bs) else e))
  | _ => fs

/-- The call `io.Copy(dst, src)` with `dst` the file `name` of directory `dir`:
all of the source is written, or a part of it when the copy fails. -/
def ioCopy (sys : Sys) (fs : FS) (dir name : String) (src : Node) : Option GoError × FS :=
  match src with
  | .dir _ => (some ⟨"read: is a directory"⟩, fs)
  | .file c =>
    match sys.copyErr with
    | some (n, e) => (some e, writeFile fs dir name (c.take n))
    | none => (none, writeFile fs dir name c)

/-- The call `os.Remove(path)`, its error dropped as the callers do: removes a
file or an empty directory. Nothing is removed when the system refuses, or when
the directory has entries or paths beneath it. -/
def osRemove (sys : Sys) (fs : FS) (path : String) : FS :=
  match sys.removeErr with
  | some _ => fs
  | none =>
    match fs.lookup path with
    | some (.dir (_ :: _)) => fs
    | _ => if fs.nodes.any (fun e => beneath path e.1) = true then fs else fs.erase path

/-- The call `os.RemoveAll(path)`, its error dropped as the callers do: removes
the path and everything beneath it. When the removal fails the path is still
there; the state is then kept as it was. -/
def osRemoveAll (sys : Sys) (fs : FS) (path : String) : FS :=
  match sys.removeAllErr with
  | some _ => fs
  | none => fs.eraseTree path

/-! ## `copyGoModToTemp` -/

/-- The deferred closure of `copyGoModToTemp`, run on the values about to be
returned: it closes the copy, and the close error becomes the returned error
when there is none yet (`err == nil && cerr != nil`). -/
def deferredClose (sys : Sys) (ret : String × Option GoError) : String × Option GoError :=
  match sys.closeErr, ret.2 with
  | some cerr, none => (ret.1, some cerr)
  | _, _ => ret

/-- The function `copyGoModToTemp`: the returned pair `(tempDir, err)` and the
filesystem state it leaves. The deferred `goModOrig.Close()` closes a handle
opened for reading and changes nothing. -/
def copyGoModToTemp (sys : Sys) (filename : String) (fs : FS) :
    (String × Option GoError) × FS :=
  match osOpen sys fs filename with
  | .error err => (("", some err), fs)
  | .ok goModOrig =>
    match ioutilTempDir sys fs with
    | (.error err, fs1) => (("", some err), fs1)
    | (.ok tempDir, fs1) =>
      match osCreate sys fs1 tempDir "go.mod" with
      | (some err, fs2) => (("", some err), osRemove sys fs2 tempDir)
      | (none, fs2) =>
        match ioCopy sys fs2 tempDir "go.mod" goModOrig with
        | (some err, fs3) => (deferredClose sys ("", some err), osRemoveAll sys fs3 tempDir)
        | (none, fs3) => (deferredClose sys (tempDir, none), fs3)

/-! ## `importRepoRulesModules` -/

/-- What `importRepoRulesModules` calls outside of this file: the system
outcomes, the name function of package `label`, the resolver hook
`goListModulesFn` (which may change the filesystem), and the JSON decoder,
given as the results of the successive `dec.Decode` calls made while
`dec.More()` holds on the data. -/
structure World where
  sys : Sys
  ImportPathToBazelRepoName : String → String
  goListModulesFn : String → FS → Except GoError Bytes × FS
  decode : Bytes → List (Except GoError module)

/-- The loop `for dec.More() { ... }` over the remaining decode results, with
the rules appended so far. -/
def decodeLoop (f : String → String) :
    List (Except GoError module) → List Repo → List Repo × Option GoError
  | [], repos => (repos, none)
  | .error err :: _, _ => ([], some err)
  | .ok mod :: rest, repos =>
    if mod.Main = true then decodeLoop f rest repos
    else decodeLoop f rest (repos ++ [toRepoRule f mod])

/-- The function `importRepoRulesModules`: the returned pair `(repos, err)`
and the filesystem state it leaves. The deferred `os.RemoveAll(tempDir)` is
registered only once `copyGoModToTemp` has returned without error; it runs last
on every later exit and its error is dropped. -/
def importRepoRulesModules (w : World) (filename : String) (fs : FS) :
    (List Repo × Option GoError) × FS :=
  match copyGoModToTemp w.sys filename fs with
  | ((_, some err), fs1) => (([], some err), fs1)
  | ((tempDir, none), fs1) =>
    let (ret, fs3) : (List Repo × Option GoError) × FS :=
      match w.goListModulesFn tempDir fs1 with
      | (.error err, fs2) => (([], some err), fs2)
      | (.ok data, fs2) => (decodeLoop w.ImportPathToBazelRepoName (w.decode data) [], fs2)
    (ret, osRemoveAll w.sys fs3 tempDir)

/-- A world in which nothing fails: the resolver prints `data`, which decodes
to `results`. -/
def quietWorld (data : Bytes) (results : List (Except GoError module)) : World :=
  { sys := { openErr := none, tempName := "/tmp/gazelle-temp-gomod1", tempDirErr := none,
             createErr := none, copyErr := none, closeErr := none,
             removeErr := none, removeAllErr := none }
    ImportPathToBazelRepoName := id
    goListModulesFn := fun _ fs => (.ok data, fs)
    decode := fun _ => results }

/-- A filesystem holding one manifest. -/
def oneManifest : FS := ⟨[("go.mod", .file [109, 111, 100])]⟩

/-- The characters of a pre-release identifier: letters, digits, `.` and `-`. -/
def isIdentChar (c : Char) : Bool := c.isAlphanum || c == '.' || c == '-'

/-- The modules of the example stream: two dependencies and the root module,
once at the end and once more in the middle. -/
def sampleModules : List module :=
  [⟨"a/b", "v1.2.3", false⟩, ⟨"root", "v0.0.0", true⟩,
   ⟨"a/b/c", "v0.0.0-20210101000000-abcdef123456", false⟩, ⟨"root", "v0.0.0", true⟩]

/-- The state `oneManifest` after a successful `copyGoModToTemp` in a quiet world. -/
def copiedFS : FS :=
  ⟨[("/tmp/gazelle-temp-gomod1", .dir [("go.mod", [109, 111, 100])]),
    ("go.mod", .file [109, 111, 100])]⟩

/-- A world in which only the close of the destination file fails. -/
def closeFailsWorld : World :=
  { quietWorld [] [] with
    sys := { openErr := none, tempName := "/tmp/gazelle-temp-gomod1", tempDirErr := none,
             createErr := none, copyErr := none,
             closeErr := some ⟨"close: input/output error"⟩,
             removeErr := none, removeAllErr := none } }

/-- A world in which the resolver succeeds and only the final removal of the
temporary directory fails. -/
def removeAllFailsWorld : World :=
  { quietWorld [] (sampleModules.map Except.ok) with
    sys := { openErr := none, tempName := "/tmp/gazelle-temp-gomod1", tempDirErr := none,
             createErr := none, copyErr := none, closeErr := none, removeErr := none,
             removeAllErr := some ⟨"unlinkat: permission denied"⟩ } }

/-- A world in which nothing fails and the resolver leaves a `go.sum` beneath
the directory it is run in. -/
def busyWorld : World :=
  { quietWorld [] (sampleModules.map Except.ok) with
    goListModulesFn := fun dir fs => (.ok [], fs.set (dir ++ "/go.sum") (.file [104, 49])) }

/-- Decode results of a stream whose second record is malformed. -/
def brokenStream : List (Except GoError module) :=
  [.ok ⟨"a/b", "v1.2.3", false⟩, .error ⟨"invalid character"⟩, .ok ⟨"a/c", "v1.0.0", false⟩]

/-! ## The language of `regexMixedVersioning` -/

/-- The strings of the regular language of `regexMixedVersioning`: a prefix
matched by `.*?`, one of `-` and `.`, an optional `0.`, fourteen decimal
digits, `-`, and twelve hexadecimal digits that end the string. -/
def MatchesMixedVersioning (s : String) : Prop :=
  ∃ pre sep opt ts h, s.data = pre ++ sep :: (opt ++ ts ++ '-' :: h) ∧
    pre.all isDot = true ∧ isSep sep = true ∧ (opt = ['0', '.'] ∨ opt = []) ∧
    ts.length = 14 ∧ ts.all isDec = true ∧ h.length = 12 ∧ h.all isHex = true

/-! ## Sample runs of the embedding -/

example : toRepoRule id ⟨"a/b/c", "v0.0.0-20210101000000-abcdef123456", false⟩ =
    ⟨"a/b/c", "a/b/c", "abcdef123456", ""⟩ := by decide

example : toRepoRule id ⟨"a/b", "v1.2.3+incompatible", false⟩ =
    ⟨"a/b", "a/b", "", "v1.2.3"⟩ := by decide

example : FindStringSubmatch "v1.2.4-0.20210101000000-abcdef123456" =
    some ["v1.2.4-0.20210101000000-abcdef123456", "v1.2.4", "0.20210101000000", "abcdef123456"] := by
  decide

example : FindStringSubmatch "v1.2.4-rc1.0.20210101000000-ABCDEF123456" =
    some ["v1.2.4-rc1.0.20210101000000-ABCDEF123456", "v1.2.4-rc1", "0.20210101000000", "ABCDEF123456"] := by
  decide

example : FindStringSubmatch "a\nb-20210101000000-abcdef123456" = none := by decide

example : toRepoRule id ⟨"", "", false⟩ = ⟨"", "", "", ""⟩ := by decide

example : importRepoRulesModules
    (quietWorld [] [.ok ⟨"a/b", "v1.2.3", false⟩,
      .ok ⟨"a/b/c", "v0.0.0-20210101000000-abcdef123456", false⟩,
      .ok ⟨"root", "v0.0.0", true⟩]) "go.mod" oneManifest =
    (([⟨"a/b", "a/b", "", "v1.2.3"⟩, ⟨"a/b/c", "a/b/c", "abcdef123456", ""⟩], none),
      oneManifest) := by decide

example : copyGoModToTemp
    { (quietWorld [] []).sys with closeErr := some ⟨"close: input/output error"⟩ }
    "go.mod" oneManifest =
    (("/tmp/gazelle-temp-gomod1", some ⟨"close: input/output error"⟩),
      ⟨[("/tmp/gazelle-temp-gomod1", .dir [("go.mod", [109, 111, 100])]),
        ("go.mod", .file [109, 111, 100])]⟩) := by decide

/-! ## The matcher and the language agree -/

theorem matchStamp_sound {alt s g2 g3 : List Char} (hm : matchStamp alt s = some (g2, g3)) :
    ∃ ts, s = alt ++ ts ++ '-' :: g3 ∧ ts.length = 14 ∧ ts.all isDec = true ∧
      g3.length = 12 ∧ g3.all isHex = true ∧ g2 = alt ++ ts := by
  unfold matchStamp at hm
  split at hm
  · rename_i hp
    obtain ⟨r, rfl⟩ := List.isPrefixOf_iff_prefix.mp hp
    simp only [List.drop_left] at hm
    split at hm
    · rename_i hts
      split at hm
      · rename_i h hd
        split at hm
        · rename_i hh
          simp only [Option.some.injEq, Prod.mk.injEq] at hm
          obtain ⟨rfl, rfl⟩ := hm
          refine ⟨r.take 14, ?_, hts.1, hts.2, hh.1, hh.2, rfl⟩
          rw [List.append_assoc, ← hd, List.take_append_drop]
        · simp at hm
      · simp at hm
    · simp at hm
  · simp at hm

theorem matchStamp_complete (alt : List Char) {ts h : List Char} (h1 : ts.length = 14)
    (h2 : ts.all isDec = true) (h3 : h.length = 12) (h4 : h.all isHex = true) :
    matchStamp alt (alt ++ ts ++ '-' :: h) = some (alt ++ ts, h) := by
  have hp : alt.isPrefixOf (alt ++ ts ++ '-' :: h) = true :=
    List.isPrefixOf_iff_prefix.mpr ⟨ts ++ '-' :: h, by simp⟩
  have hd : List.drop alt.length (alt ++ ts ++ '-' :: h) = ts ++ '-' :: h := by
    rw [List.append_assoc, List.drop_left]
  have ht : List.take 14 (ts ++ '-' :: h) = ts := by
    rw [← h1, List.take_left]
  have hr : List.drop 14 (ts ++ '-' :: h) = '-' :: h := by
    rw [← h1, List.drop_left]
  unfold matchStamp
  simp only [hp, hd, ht, hr, h1, h2, h3, h4, and_self, if_true]

theorem matchTail_sound {t g2 g3 : List Char} (hm : matchTail t = some (g2, g3)) :
    ∃ sep opt ts, t = sep :: (opt ++ ts ++ '-' :: g3) ∧ isSep sep = true ∧
      (opt = ['0', '.'] ∨ opt = []) ∧ ts.length = 14 ∧ ts.all isDec = true ∧
      g3.length = 12 ∧ g3.all isHex = true ∧ g2 = opt ++ ts := by
  cases t with
  | nil => simp [matchTail] at hm
  | cons c s =>
    rw [matchTail] at hm
    split at hm
    · rename_i hc
      split at hm
      · rename_i g hg
        cases hm
        obtain ⟨ts, e, a1, a2, a3, a4, a5⟩ := matchStamp_sound hg
        exact ⟨c, ['0', '.'], ts, by rw [e], hc, Or.inl rfl, a1, a2, a3, a4, a5⟩
      · obtain ⟨ts, e, a1, a2, a3, a4, a5⟩ := matchStamp_sound hm
        exact ⟨c, [], ts, by rw [e], hc, Or.inr rfl, a1, a2, a3, a4, a5⟩
    · simp at hm

theorem matchTail_complete {sep : Char} {opt ts h : List Char} (h0 : isSep sep = true)
    (ho : opt = ['0', '.'] ∨ opt = []) (h1 : ts.length = 14)
    (h2 : ts.all isDec = true) (h3 : h.length = 12) (h4 : h.all isHex = true) :
    (matchTail (sep :: (opt ++ ts ++ '-' :: h))).isSome = true := by
  rw [matchTail, if_pos h0]
  split
  · rfl
  · rename_i hn
    rcases ho with rfl | rfl
    · rw [matchStamp_complete ['0', '.'] h1 h2 h3 h4] at hn
      cases hn
    · rw [matchStamp_complete [] h1 h2 h3 h4]
      rfl

theorem matchLazy_sound {s : List Char} : ∀ {pre : List Char} {gr : List (List Char)},
    matchLazy pre s = some gr →
    ∃ p t g2 g3, s = p ++ t ∧ p.all isDot = true ∧ matchTail t = some (g2, g3) ∧
      gr = [pre ++ s, pre ++ p, g2, g3] := by
  induction s with
  | nil => intro pre gr hm; simp [matchLazy] at hm
  | cons c s ih =>
    intro pre gr hm
    unfold matchLazy at hm
    split at hm
    · rename_i g2 g3 ht
      cases hm
      exact ⟨[], c :: s, g2, g3, rfl, rfl, ht, by simp⟩
    · split at hm
      · rename_i hc
        obtain ⟨p, t, g2, g3, e, hp, ht, hg⟩ := ih hm
        refine ⟨c :: p, t, g2, g3, by rw [e]; rfl, ?_, ht, ?_⟩
        · simp only [List.all_cons, hc, hp, Bool.and_self]
        · rw [hg]; simp
      · simp at hm

theorem matchLazy_complete {t : List Char} (ht : (matchTail t).isSome = true) :
    ∀ (p pre : List Char), p.all isDot = true → (matchLazy pre (p ++ t)).isSome = true := by
  intro p
  induction p with
  | nil =>
    intro pre _
    cases t with
    | nil => simp [matchTail] at ht
    | cons c s =>
      simp only [List.nil_append]
      unfold matchLazy
      split
      · rfl
      · rename_i hn
        rw [hn] at ht
        cases ht
  | cons c p ih =>
    intro pre hp
    simp only [List.all_cons, Bool.and_eq_true] at hp
    simp only [List.cons_append]
    unfold matchLazy
    split
    · rfl
    · rw [if_pos hp.1]
      exact ih _ hp.2

theorem drop_length_sub_right {α : Type} (a b : List α) :
    (a ++ b).drop ((a ++ b).length - b.length) = b := by
  have e : (a ++ b).length - b.length = a.length := by simp
  rw [e, List.drop_left]

theorem take_length_sub_right {α : Type} (a b : List α) :
    (a ++ b).take ((a ++ b).length - b.length) = a := by
  have e : (a ++ b).length - b.length = a.length := by simp
  rw [e, List.take_left]

/-- A string of the language ends in twelve hexadecimal digits. -/
theorem matches_last12 {s : String} (h : MatchesMixedVersioning s) :
    ∃ front g3, s.data = front ++ g3 ∧ g3.length = 12 ∧ g3.all isHex = true := by
  obtain ⟨pre, sep, opt, ts, g3, e, -, -, -, -, -, h3, h4⟩ := h
  exact ⟨pre ++ sep :: (opt ++ ts ++ ['-']), g3, by rw [e]; simp, h3, h4⟩

theorem lastChars_of_append {s : String} {front g3 : List Char} (e : s.data = front ++ g3)
    (h3 : g3.length = 12) : lastChars 12 s = String.mk g3 := by
  unfold lastChars
  rw [e, ← h3, drop_length_sub_right]

/-- The matcher succeeds exactly on the language of the pattern. -/
theorem FindStringSubmatch_isSome_iff (s : String) :
    (FindStringSubmatch s).isSome = true ↔ MatchesMixedVersioning s := by
  unfold FindStringSubmatch
  rw [Option.isSome_map']
  constructor
  · intro h
    obtain ⟨gr, hgr⟩ := Option.isSome_iff_exists.mp h
    obtain ⟨p, t, g2, g3, e, hp, ht, -⟩ := matchLazy_sound hgr
    obtain ⟨sep, opt, ts, et, a0, a1, a2, a3, a4, a5, -⟩ := matchTail_sound ht
    exact ⟨p, sep, opt, ts, g3, by rw [e, et], hp, a0, a1, a2, a3, a4, a5⟩
  · rintro ⟨pre, sep, opt, ts, g3, e, hp, a0, a1, a2, a3, a4, a5⟩
    rw [e]
    exact matchLazy_complete (matchTail_complete a0 a1 a2 a3 a4 a5) pre [] hp

/-- Group 3 of a successful match is the last twelve characters of the input. -/
theorem FindStringSubmatch_group3 {s : String} {gr : List String}
    (h : FindStringSubmatch s = some gr) : gr.getD 3 "" = lastChars 12 s := by
  unfold FindStringSubmatch at h
  obtain ⟨gr0, hgr, rfl⟩ := Option.map_eq_some'.mp h
  obtain ⟨p, t, g2, g3, e, -, ht, rfl⟩ := matchLazy_sound hgr
  obtain ⟨sep, opt, ts, et, -, -, -, -, a4, -, -⟩ := matchTail_sound ht
  have e2 : s.data = (p ++ sep :: (opt ++ ts ++ ['-'])) ++ g3 := by rw [e, et]; simp
  rw [lastChars_of_append e2 a4]
  rfl

theorem toRepoRule_match (f : String → String) {mod : module}
    (h : MatchesMixedVersioning mod.Version) :
    (toRepoRule f mod).Commit = lastChars 12 mod.Version ∧ (toRepoRule f mod).Tag = "" := by
  obtain ⟨gr, hgr⟩ := Option.isSome_iff_exists.mp ((FindStringSubmatch_isSome_iff _).mpr h)
  unfold toRepoRule
  rw [hgr]
  exact ⟨FindStringSubmatch_group3 hgr, rfl⟩

theorem toRepoRule_no_match (f : String → String) {mod : module}
    (h : ¬ MatchesMixedVersioning mod.Version) :
    (toRepoRule f mod).Commit = "" ∧
      (toRepoRule f mod).Tag = TrimSuffix mod.Version incompatible := by
  have hn : FindStringSubmatch mod.Version = none := by
    cases hf : FindStringSubmatch mod.Version with
    | none => rfl
    | some gr =>
      exact absurd ((FindStringSubmatch_isSome_iff _).mp (by rw [hf]; rfl)) h
  unfold toRepoRule
  rw [hn]
  exact ⟨rfl, rfl⟩

/-! ## Facts about `strings.HasSuffix` and `strings.TrimSuffix` -/

theorem HasSuffix_iff (s suffix : String) :
    HasSuffix s suffix = true ↔ ∃ base : String, s = base ++ suffix := by
  unfold HasSuffix
  simp only [Bool.and_eq_true, decide_eq_true_eq]
  constructor
  · rintro ⟨hl, hd⟩
    refine ⟨String.mk (s.data.take (s.data.length - suffix.data.length)), ?_⟩
    apply String.ext
    rw [String.data_append]
    show s.data = List.take (s.data.length - suffix.data.length) s.data ++ suffix.data
    have key := List.take_append_drop (s.data.length - suffix.data.length) s.data
    rw [hd] at key
    exact key.symm
  · rintro ⟨base, rfl⟩
    rw [String.data_append]
    exact ⟨by simp, drop_length_sub_right _ _⟩

theorem TrimSuffix_append (base suffix : String) : TrimSuffix (base ++ suffix) suffix = base := by
  unfold TrimSuffix
  rw [if_pos ((HasSuffix_iff _ _).mpr ⟨base, rfl⟩), String.data_append, take_length_sub_right]

theorem TrimSuffix_of_not_HasSuffix {s suffix : String} (h : HasSuffix s suffix = false) :
    TrimSuffix s suffix = s := by
  unfold TrimSuffix
  rw [h]
  rfl

/-- No string ending in `incompatible` belongs to the language of the pattern:
its last twelve characters are not all hexadecimal digits. -/
theorem not_matches_append_incompatible (b : String) :
    ¬ MatchesMixedVersioning (b ++ incompatible) := by
  intro h
  obtain ⟨front, g3, e, h3, h4⟩ := matches_last12 h
  have e2 : (b ++ incompatible).data = (b.data ++ ['+']) ++ "incompatible".data := by
    rw [String.data_append]
    simp [incompatible]
  rw [e2] at e
  have := (List.append_inj' e (by rw [h3]; rfl)).2
  rw [← this] at h4
  revert h4
  decide

theorem HasSuffix_empty_incompatible : HasSuffix "" incompatible = false := by decide

theorem not_matches_empty : ¬ MatchesMixedVersioning "" := by
  intro h
  obtain ⟨front, g3, e, h3, -⟩ := matches_last12 h
  have hl := congrArg List.length e
  rw [List.length_append, h3] at hl
  simp at hl

theorem not_matches_incompatible : ¬ MatchesMixedVersioning incompatible := by
  have h := not_matches_append_incompatible ""
  rwa [String.empty_append] at h

theorem String.append_right_cancel {a b c : String} (h : a ++ c = b ++ c) : a = b := by
  apply String.ext
  have := congrArg String.data h
  rw [String.data_append, String.data_append] at this
  exact List.append_cancel_right this

/-- Stripping one marker leaves a marker exactly when there were two. -/
theorem HasSuffix_TrimSuffix_incompatible (v : String) :
    HasSuffix (TrimSuffix v incompatible) incompatible = true ↔
      HasSuffix v (incompatible ++ incompatible) = true := by
  cases hv : HasSuffix v incompatible with
  | true =>
    obtain ⟨b, rfl⟩ := (HasSuffix_iff _ _).mp hv
    rw [TrimSuffix_append, HasSuffix_iff, HasSuffix_iff]
    constructor
    · rintro ⟨c, rfl⟩
      exact ⟨c, String.append_assoc _ _ _⟩
    · rintro ⟨c, hc⟩
      rw [← String.append_assoc] at hc
      exact ⟨c, String.append_right_cancel hc⟩
  | false =>
    rw [TrimSuffix_of_not_HasSuffix hv, hv]
    constructor
    · intro h; cases h
    · intro h
      obtain ⟨c, hc⟩ := (HasSuffix_iff _ _).mp h
      rw [← String.append_assoc] at hc
      rw [(HasSuffix_iff v incompatible).mpr ⟨_, hc⟩] at hv
      cases hv

theorem TrimSuffix_incompatible_eq_empty (v : String) :
    TrimSuffix v incompatible = "" ↔ v = "" ∨ v = incompatible := by
  constructor
  · intro h
    cases hv : HasSuffix v incompatible with
    | true =>
      obtain ⟨b, rfl⟩ := (HasSuffix_iff _ _).mp hv
      rw [TrimSuffix_append] at h
      right
      rw [h, String.empty_append]
    | false =>
      rw [TrimSuffix_of_not_HasSuffix hv] at h
      exact Or.inl h
  · rintro (rfl | rfl) <;> decide

theorem lastChars_ne_empty {s : String} (h : MatchesMixedVersioning s) : lastChars 12 s ≠ "" := by
  obtain ⟨front, g3, e, h3, -⟩ := matches_last12 h
  rw [lastChars_of_append e h3]
  intro hc
  have := congrArg (fun x => x.data.length) hc
  simp [h3] at this

theorem isDot_of_isDec {c : Char} (h : isDec c = true) : isDot c = true := by
  unfold isDot
  rw [decide_eq_true_eq]
  rintro rfl
  revert h
  decide

theorem isDot_of_identifier {c : Char} (h : isIdentChar c = true) : isDot c = true := by
  unfold isDot
  rw [decide_eq_true_eq]
  rintro rfl
  revert h
  decide

/-- A version cut into the parts of the pattern gives its last part as commit. -/
theorem toRepoRule_of_parts (f : String → String) (path : String) (main : Bool) {v : String}
    (pre : List Char) (sep : Char) (opt ts h : List Char)
    (e : v.data = pre ++ sep :: (opt ++ ts ++ '-' :: h))
    (hp : pre.all isDot = true) (h0 : isSep sep = true) (ho : opt = ['0', '.'] ∨ opt = [])
    (h1 : ts.length = 14) (h2 : ts.all isDec = true) (h3 : h.length = 12)
    (h4 : h.all isHex = true) :
    (toRepoRule f ⟨path, v, main⟩).Commit = String.mk h ∧
      (toRepoRule f ⟨path, v, main⟩).Tag = "" := by
  have hm : MatchesMixedVersioning (module.mk path v main).Version :=
    ⟨pre, sep, opt, ts, h, e, hp, h0, ho, h1, h2, h3, h4⟩
  have e2 : v.data = (pre ++ sep :: (opt ++ ts ++ ['-'])) ++ h := by rw [e]; simp
  have := toRepoRule_match f hm
  rw [show lastChars 12 (module.mk path v main).Version = String.mk h from
    lastChars_of_append e2 h3] at this
  exact this

/-! ## Facts about the filesystem model -/

theorem lookup_filter_ne (path : String) (l : List (String × Node)) :
    List.lookup path (l.filter fun e => e.1 != path) = none := by
  induction l with
  | nil => rfl
  | cons a l ih =>
    obtain ⟨k, n⟩ := a
    by_cases hk : k = path
    · subst hk
      simpa [List.filter] using ih
    · have hne : (k != path) = true := by simpa using hk
      have hb : (path == k) = false := by
        simpa using fun h : path = k => hk h.symm
      rw [List.filter_cons_of_pos (by simpa using hne), List.lookup_cons, hb]
      exact ih

theorem FS.has_erase (fs : FS) (path : String) : (fs.erase path).has path = false := by
  unfold FS.has FS.lookup FS.erase
  rw [lookup_filter_ne]
  rfl

theorem FS.lookup_set (fs : FS) (path : String) (n : Node) :
    (fs.set path n).lookup path = some n := by
  unfold FS.lookup FS.set
  simp [List.lookup_cons]

theorem lookup_filter_not_isUnder (path p : String) (hp : isUnder path p = true)
    (l : List (String × Node)) :
    List.lookup p (l.filter fun e => !isUnder path e.1) = none := by
  induction l with
  | nil => rfl
  | cons a l ih =>
    obtain ⟨k, n⟩ := a
    cases hk : isUnder path k with
    | true =>
      rw [List.filter_cons_of_neg (by simp [hk])]
      exact ih
    | false =>
      have hb : (p == k) = false := by
        cases hpk : p == k with
        | false => rfl
        | true =>
          have e : p = k := by simpa using hpk
          rw [e, hk] at hp
          cases hp
      rw [List.filter_cons_of_pos (by simp [hk]), List.lookup_cons, hb]
      exact ih

theorem FS.has_eraseTree (fs : FS) (path p : String) (hp : isUnder path p = true) :
    (fs.eraseTree path).has p = false := by
  unfold FS.has FS.lookup FS.eraseTree
  rw [lookup_filter_not_isUnder path p hp]
  rfl

theorem isUnder_self (path : String) : isUnder path path = true := by
  simp [isUnder]

theorem beneath_self (path : String) : beneath path path = false := by
  cases h : beneath path path with
  | false => rfl
  | true =>
    have hl := (List.isPrefixOf_iff_prefix.mp h).length_le
    simp at hl

/-- A removal that does not fail leaves nothing at the path or beneath it. -/
theorem has_osRemoveAll (sys : Sys) (fs : FS) (path p : String)
    (hr : sys.removeAllErr = none) (hp : isUnder path p = true) :
    (osRemoveAll sys fs path).has p = false := by
  unfold osRemoveAll
  rw [hr]
  exact FS.has_eraseTree fs path p hp

/-! ## Facts about the decoding loop -/

theorem decodeLoop_all_ok (f : String → String) (ms : List module) :
    ∀ repos : List Repo, decodeLoop f (ms.map Except.ok) repos =
      (repos ++ (ms.filter fun m => !m.Main).map (toRepoRule f), none) := by
  induction ms with
  | nil => intro repos; simp [decodeLoop]
  | cons m ms ih =>
    intro repos
    rw [List.map_cons, decodeLoop]
    cases hm : m.Main with
    | true => simp [List.filter, hm, ih]
    | false => simp [List.filter, hm, ih]

theorem decodeLoop_first_error (f : String → String) (e : GoError)
    (rest : List (Except GoError module)) (ms : List module) :
    ∀ repos : List Repo, decodeLoop f (ms.map Except.ok ++ Except.error e :: rest) repos =
      ([], some e) := by
  induction ms with
  | nil => intro repos; simp [decodeLoop]
  | cons m ms ih =>
    intro repos
    rw [List.map_cons, List.cons_append, decodeLoop]
    split
    · exact ih _
    · exact ih _

theorem decodeLoop_error_inv (f : String → String) (e : GoError) :
    ∀ (l : List (Except GoError module)) (repos : List Repo),
      (decodeLoop f l repos).2 = some e →
      (decodeLoop f l repos).1 = [] ∧
        ∃ (ms : List module) (rest : List (Except GoError module)),
          l = ms.map Except.ok ++ Except.error e :: rest := by
  intro l
  induction l with
  | nil => intro repos h; simp [decodeLoop] at h
  | cons a l ih =>
    intro repos h
    cases a with
    | error err =>
      simp only [decodeLoop, Option.some.injEq] at h
      subst h
      exact ⟨rfl, [], l, rfl⟩
    | ok m =>
      rw [decodeLoop] at h ⊢
      split at h
      · rename_i hm
        rw [if_pos hm]
        obtain ⟨h1, ms, rest, rfl⟩ := ih _ h
        exact ⟨h1, m :: ms, rest, rfl⟩
      · rename_i hm
        rw [if_neg hm]
        obtain ⟨h1, ms, rest, rfl⟩ := ih _ h
        exact ⟨h1, m :: ms, rest, rfl⟩

/-! ## Facts about `importRepoRulesModules` -/

theorem importRepoRulesModules_copy_error (w : World) (filename : String) (fs : FS)
    {t : String} {e : GoError} {fs1 : FS}
    (hc : copyGoModToTemp w.sys filename fs = ((t, some e), fs1)) :
    importRepoRulesModules w filename fs = (([], some e), fs1) := by
  unfold importRepoRulesModules
  rw [hc]

theorem importRepoRulesModules_list_error (w : World) (filename : String) (fs : FS)
    {t : String} {e : GoError} {fs1 fs2 : FS}
    (hc : copyGoModToTemp w.sys filename fs = ((t, none), fs1))
    (hg : w.goListModulesFn t fs1 = (.error e, fs2)) :
    importRepoRulesModules w filename fs = (([], some e), osRemoveAll w.sys fs2 t) := by
  unfold importRepoRulesModules
  rw [hc]
  simp only [hg]

theorem importRepoRulesModules_decoded (w : World) (filename : String) (fs : FS)
    {t : String} {data : Bytes} {fs1 fs2 : FS}
    (hc : copyGoModToTemp w.sys filename fs = ((t, none), fs1))
    (hg : w.goListModulesFn t fs1 = (.ok data, fs2)) :
    importRepoRulesModules w filename fs =
      (decodeLoop w.ImportPathToBazelRepoName (w.decode data) [], osRemoveAll w.sys fs2 t) := by
  unfold importRepoRulesModules
  rw [hc]
  simp only [hg]

/-! ## Facts about `copyGoModToTemp` -/

theorem deferredClose_of_error (sys : Sys) (t : String) (e : GoError) :
    deferredClose sys (t, some e) = (t, some e) := by
  unfold deferredClose
  cases sys.closeErr <;> rfl

theorem ioutilTempDir_ok {sys : Sys} {fs fs1 : FS} {t : String}
    (h : ioutilTempDir sys fs = (.ok t, fs1)) : fs1 = fs.set t (.dir []) := by
  unfold ioutilTempDir at h
  split at h
  · cases h
  · split at h
    · cases h
    · cases h; rfl

/-- When creating the destination file fails, nothing lay beneath the fresh name
and the removal is not refused, the fresh directory is removed and no directory
name is returned. -/
theorem copyGoModToTemp_create_failure (sys : Sys) (filename : String) (fs : FS)
    {src : Node} {t : String} {e : GoError} {fs1 fs2 : FS}
    (ho : osOpen sys fs filename = .ok src) (ht : ioutilTempDir sys fs = (.ok t, fs1))
    (hcr : osCreate sys fs1 t "go.mod" = (some e, fs2))
    (hr : sys.removeErr = none)
    (hfresh : fs.nodes.any (fun n => beneath t n.1) = false) :
    copyGoModToTemp sys filename fs = (("", some e), osRemove sys fs2 t) ∧
      (osRemove sys fs2 t).has t = false := by
  have hfs1 := ioutilTempDir_ok ht
  have hl : fs1.lookup t = some (.dir []) := by rw [hfs1, FS.lookup_set]
  have hfs2 : fs2 = fs1 := by
    unfold osCreate at hcr
    split at hcr
    · cases hcr; rfl
    · rw [hl] at hcr
      cases hcr
  have hany : fs1.nodes.any (fun n => beneath t n.1) = false := by
    cases hb : fs1.nodes.any (fun n => beneath t n.1) with
    | false => rfl
    | true =>
      obtain ⟨x, hx, hbx⟩ := List.any_eq_true.mp hb
      rw [hfs1] at hx
      unfold FS.set FS.erase at hx
      rcases List.mem_cons.mp hx with rfl | hx
      · rw [beneath_self] at hbx
        cases hbx
      · have hx2 := List.mem_of_mem_filter hx
        have : fs.nodes.any (fun n => beneath t n.1) = true :=
          List.any_eq_true.mpr ⟨x, hx2, hbx⟩
        rw [hfresh] at this
        cases this
  refine ⟨?_, ?_⟩
  · unfold copyGoModToTemp
    rw [ho]
    simp only [ht, hcr]
  · unfold osRemove
    rw [hr, hfs2, hl]
    simp only [hany]
    exact FS.has_erase _ _

/-- When copying the bytes fails and the removal is not refused, the directory
is removed with its content and no directory name is returned. -/
theorem copyGoModToTemp_copy_failure (sys : Sys) (filename : String) (fs : FS)
    {src : Node} {t : String} {e : GoError} {fs1 fs2 fs3 : FS}
    (ho : osOpen sys fs filename = .ok src) (ht : ioutilTempDir sys fs = (.ok t, fs1))
    (hcr : osCreate sys fs1 t "go.mod" = (none, fs2))
    (hcp : ioCopy sys fs2 t "go.mod" src = (some e, fs3))
    (hr : sys.removeAllErr = none) :
    copyGoModToTemp sys filename fs = (("", some e), osRemoveAll sys fs3 t) ∧
      (osRemoveAll sys fs3 t).has t = false := by
  refine ⟨?_, has_osRemoveAll _ _ _ _ hr (isUnder_self t)⟩
  unfold copyGoModToTemp
  rw [ho]
  simp only [ht, hcr, hcp, deferredClose_of_error]

/-- When only closing the destination file fails, the directory name is returned
next to the error and the directory stays in place. -/
theorem copyGoModToTemp_close_failure (sys : Sys) (filename : String) (fs : FS)
    {src : Node} {t : String} {cerr : GoError} {fs1 fs2 fs3 : FS}
    (ho : osOpen sys fs filename = .ok src) (ht : ioutilTempDir sys fs = (.ok t, fs1))
    (hcr : osCreate sys fs1 t "go.mod" = (none, fs2))
    (hcp : ioCopy sys fs2 t "go.mod" src = (none, fs3))
    (hcl : sys.closeErr = some cerr) :
    copyGoModToTemp sys filename fs = ((t, some cerr), fs3) ∧ fs3.has t = true := by
  refine ⟨?_, ?_⟩
  · unfold copyGoModToTemp
    rw [ho]
    simp only [ht, hcr, hcp, deferredClose, hcl]
  · have hfs1 := ioutilTempDir_ok ht
    have hl : fs1.lookup t = some (.dir []) := by rw [hfs1, FS.lookup_set]
    have hl2 : ∃ es, fs2.lookup t = some (.dir es) := by
      unfold osCreate at hcr
      split at hcr
      · cases hcr
      · rw [hl] at hcr
        cases hcr
        exact ⟨_, FS.lookup_set _ _ _⟩
    obtain ⟨es, hes⟩ := hl2
    have hw : ∀ bs, (writeFile fs2 t "go.mod" bs).has t = true := by
      intro bs
      unfold writeFile FS.has
      rw [hes]
      simp only [FS.lookup_set, Option.isSome_some]
    unfold ioCopy at hcp
    split at hcp
    · cases hcp
    · split at hcp
      · cases hcp
      · cases hcp
        exact hw _

theorem all_isDot_of_isDec {l : List Char} (h : l.all isDec = true) : l.all isDot = true := by
  rw [List.all_eq_true] at h ⊢
  exact fun c hc => isDot_of_isDec (h c hc)

theorem all_isDot_of_isIdentChar {l : List Char} (h : l.all isIdentChar = true) :
    l.all isDot = true := by
  rw [List.all_eq_true] at h ⊢
  exact fun c hc => isDot_of_identifier (h c hc)

theorem matches_sample : MatchesMixedVersioning "v0.0.0-20210101000000-abcdef123456" :=
  (FindStringSubmatch_isSome_iff _).mp (by decide)

/-! ## The claims -/

/-- C1: for every module whose Version belongs to the language of
`regexMixedVersioning`, `toRepoRule` returns a Repo whose Commit is the last
twelve characters of Version and whose Tag is empty. -/
theorem toRepoRule_pseudo_version_commit (f : String → String) (mod : module)
    (h : MatchesMixedVersioning mod.Version) :
    (toRepoRule f mod).Commit = lastChars 12 mod.Version ∧ (toRepoRule f mod).Tag = "" :=
  toRepoRule_match f h

theorem toRepoRule_pseudo_version_commit_witness :
    MatchesMixedVersioning
        (module.mk "a/b/c" "v0.0.0-20210101000000-abcdef123456" false).Version ∧
      (toRepoRule id ⟨"a/b/c", "v0.0.0-20210101000000-abcdef123456", false⟩).Commit =
        lastChars 12 "v0.0.0-20210101000000-abcdef123456" ∧
      (toRepoRule id ⟨"a/b/c", "v0.0.0-20210101000000-abcdef123456", false⟩).Tag = "" :=
  ⟨matches_sample, toRepoRule_pseudo_version_commit id _ matches_sample⟩

/-- C2: for every module whose Version is outside the language of
`regexMixedVersioning`, `toRepoRule` returns an empty Commit, and a Tag that is
Version itself when Version does not end in `+incompatible`, and Version
without that one trailing `+incompatible` when it does. -/
theorem toRepoRule_tag_of_plain_version (f : String → String) (mod : module)
    (h : ¬ MatchesMixedVersioning mod.Version) :
    (toRepoRule f mod).Commit = "" ∧
      ((¬ ∃ base : String, mod.Version = base ++ incompatible) →
        (toRepoRule f mod).Tag = mod.Version) ∧
      (∀ base : String, mod.Version = base ++ incompatible →
        (toRepoRule f mod).Tag = base) := by
  obtain ⟨hc, ht⟩ := toRepoRule_no_match f h
  refine ⟨hc, ?_, ?_⟩
  · intro hn
    rw [ht]
    apply TrimSuffix_of_not_HasSuffix
    cases hs : HasSuffix mod.Version incompatible with
    | false => rfl
    | true => exact absurd ((HasSuffix_iff _ _).mp hs) hn
  · intro base hb
    rw [ht, hb, TrimSuffix_append]

theorem toRepoRule_tag_of_plain_version_witness :
    ¬ MatchesMixedVersioning (module.mk "a/b" "v1.2.3+incompatible" false).Version ∧
      (toRepoRule id ⟨"a/b", "v1.2.3+incompatible", false⟩).Commit = "" ∧
      (toRepoRule id ⟨"a/b", "v1.2.3+incompatible", false⟩).Tag = "v1.2.3" :=
  ⟨not_matches_append_incompatible "v1.2.3",
    (toRepoRule_tag_of_plain_version id ⟨"a/b", "v1.2.3+incompatible", false⟩
      (not_matches_append_incompatible "v1.2.3")).1,
    (toRepoRule_tag_of_plain_version id ⟨"a/b", "v1.2.3+incompatible", false⟩
      (not_matches_append_incompatible "v1.2.3")).2.2 "v1.2.3" (by decide)⟩

/-- C3: when the manifest copy and the resolver call succeed and the resolver
output decodes without error to the modules `ms`, `importRepoRulesModules`
returns no error and exactly the rules `toRepoRule m` of the modules `m` of
`ms` with `Main = false`, in the order of `ms`. -/
theorem importRepoRulesModules_filter_map (w : World) (filename : String) (fs : FS)
    (tempDir : String) (fs1 fs2 : FS) (data : Bytes) (ms : List module)
    (hc : copyGoModToTemp w.sys filename fs = ((tempDir, none), fs1))
    (hg : w.goListModulesFn tempDir fs1 = (.ok data, fs2))
    (hd : w.decode data = ms.map Except.ok) :
    (importRepoRulesModules w filename fs).1 =
      ((ms.filter fun m => !m.Main).map (toRepoRule w.ImportPathToBazelRepoName), none) := by
  rw [importRepoRulesModules_decoded w filename fs hc hg, hd, decodeLoop_all_ok]
  rfl

theorem importRepoRulesModules_filter_map_witness :
    (importRepoRulesModules (quietWorld [] (sampleModules.map Except.ok)) "go.mod"
        oneManifest).1 =
      ((sampleModules.filter fun m => !m.Main).map (toRepoRule id), none) :=
  importRepoRulesModules_filter_map (quietWorld [] (sampleModules.map Except.ok)) "go.mod"
    oneManifest "/tmp/gazelle-temp-gomod1" copiedFS copiedFS [] sampleModules
    (by decide) rfl rfl

/-- C4: the three documented pseudo-version forms are recognised: for decimal
numbers `X`, `Y`, `Z`, a non-empty pre-release identifier `pre` of letters,
digits, `.` and `-`, a timestamp `t` of fourteen decimal digits and a fragment
`h` of twelve hexadecimal digits, `toRepoRule` returns Commit `h` and an empty
Tag on `vX.0.0-t-h`, on `vX.Y.Z-pre.0.t-h` and on `vX.Y.Z-0.t-h`. -/
theorem toRepoRule_three_pseudo_forms (f : String → String) (path : String) (main : Bool)
    (X Y Z pre t h : String)
    (hX : X.data ≠ [] ∧ X.data.all isDec = true)
    (hY : Y.data ≠ [] ∧ Y.data.all isDec = true)
    (hZ : Z.data ≠ [] ∧ Z.data.all isDec = true)
    (hpre : pre.data ≠ [] ∧ pre.data.all isIdentChar = true)
    (ht : t.data.length = 14 ∧ t.data.all isDec = true)
    (hh : h.data.length = 12 ∧ h.data.all isHex = true) :
    ((toRepoRule f ⟨path, "v" ++ X ++ ".0.0-" ++ t ++ "-" ++ h, main⟩).Commit = h ∧
      (toRepoRule f ⟨path, "v" ++ X ++ ".0.0-" ++ t ++ "-" ++ h, main⟩).Tag = "") ∧
    ((toRepoRule f ⟨path, "v" ++ X ++ "." ++ Y ++ "." ++ Z ++ "-" ++ pre ++ ".0." ++ t ++
        "-" ++ h, main⟩).Commit = h ∧
      (toRepoRule f ⟨path, "v" ++ X ++ "." ++ Y ++ "." ++ Z ++ "-" ++ pre ++ ".0." ++ t ++
        "-" ++ h, main⟩).Tag = "") ∧
    ((toRepoRule f ⟨path, "v" ++ X ++ "." ++ Y ++ "." ++ Z ++ "-0." ++ t ++ "-" ++ h,
        main⟩).Commit = h ∧
      (toRepoRule f ⟨path, "v" ++ X ++ "." ++ Y ++ "." ++ Z ++ "-0." ++ t ++ "-" ++ h,
        main⟩).Tag = "") := by
  have dX := all_isDot_of_isDec hX.2
  have dY := all_isDot_of_isDec hY.2
  have dZ := all_isDot_of_isDec hZ.2
  have dpre := all_isDot_of_isIdentChar hpre.2
  have dv : isDot 'v' = true := by decide
  have dd : isDot '.' = true := by decide
  have dm : isDot '-' = true := by decide
  have d0 : isDot '0' = true := by decide
  refine ⟨?_, ?_, ?_⟩
  · exact toRepoRule_of_parts f path main
      ('v' :: (X.data ++ ['.', '0', '.', '0'])) '-' [] t.data h.data
      (by simp [String.data_append])
      (by simp [List.all_append, dX, dv, dd, d0])
      (by decide) (Or.inr rfl) ht.1 ht.2 hh.1 hh.2
  · exact toRepoRule_of_parts f path main
      ('v' :: (X.data ++ '.' :: (Y.data ++ '.' :: (Z.data ++ '-' :: pre.data))))
      '.' ['0', '.'] t.data h.data
      (by simp [String.data_append])
      (by simp [List.all_append, dX, dY, dZ, dpre, dv, dd, dm])
      (by decide) (Or.inl rfl) ht.1 ht.2 hh.1 hh.2
  · exact toRepoRule_of_parts f path main
      ('v' :: (X.data ++ '.' :: (Y.data ++ '.' :: Z.data)))
      '-' ['0', '.'] t.data h.data
      (by simp [String.data_append])
      (by simp [List.all_append, dX, dY, dZ, dv, dd])
      (by decide) (Or.inl rfl) ht.1 ht.2 hh.1 hh.2

theorem toRepoRule_three_pseudo_forms_witness :
    ((toRepoRule id ⟨"a", "v" ++ "2" ++ ".0.0-" ++ "20210101000000" ++ "-" ++
        "abcdef123456", false⟩).Commit = "abcdef123456" ∧
      (toRepoRule id ⟨"a", "v" ++ "2" ++ ".0.0-" ++ "20210101000000" ++ "-" ++
        "abcdef123456", false⟩).Tag = "") ∧
    ((toRepoRule id ⟨"a", "v" ++ "2" ++ "." ++ "10" ++ "." ++ "3" ++ "-" ++ "rc.1" ++ ".0." ++
        "20210101000000" ++ "-" ++ "abcdef123456", false⟩).Commit = "abcdef123456" ∧
      (toRepoRule id ⟨"a", "v" ++ "2" ++ "." ++ "10" ++ "." ++ "3" ++ "-" ++ "rc.1" ++ ".0." ++
        "20210101000000" ++ "-" ++ "abcdef123456", false⟩).Tag = "") ∧
    ((toRepoRule id ⟨"a", "v" ++ "2" ++ "." ++ "10" ++ "." ++ "3" ++ "-0." ++
        "20210101000000" ++ "-" ++ "abcdef123456", false⟩).Commit = "abcdef123456" ∧
      (toRepoRule id ⟨"a", "v" ++ "2" ++ "." ++ "10" ++ "." ++ "3" ++ "-0." ++
        "20210101000000" ++ "-" ++ "abcdef123456", false⟩).Tag = "") :=
  toRepoRule_three_pseudo_forms id "a" false "2" "10" "3" "rc.1" "20210101000000"
    "abcdef123456" (by decide) (by decide) (by decide) (by decide) (by decide) (by decide)

/-- C5, as the code has it: the Repo returned by `toRepoRule` never has both
Commit and Tag non-empty, and has both empty exactly when Version is the empty
string or the bare marker `+incompatible`; for every other Version exactly one
of the two is non-empty. -/
theorem toRepoRule_commit_tag_exclusive (f : String → String) (mod : module) :
    ¬ ((toRepoRule f mod).Commit ≠ "" ∧ (toRepoRule f mod).Tag ≠ "") ∧
      (((toRepoRule f mod).Commit = "" ∧ (toRepoRule f mod).Tag = "") ↔
        (mod.Version = "" ∨ mod.Version = incompatible)) := by
  by_cases h : MatchesMixedVersioning mod.Version
  · obtain ⟨hc, ht⟩ := toRepoRule_match f h
    refine ⟨fun hb => hb.2 ht, ?_⟩
    constructor
    · intro hb
      exact absurd (hc ▸ hb.1) (lastChars_ne_empty h)
    · rintro (hv | hv)
      · rw [hv] at h
        exact absurd h not_matches_empty
      · rw [hv] at h
        exact absurd h not_matches_incompatible
  · obtain ⟨hc, ht⟩ := toRepoRule_no_match f h
    refine ⟨fun hb => hb.1 hc, ?_⟩
    rw [ht, ← TrimSuffix_incompatible_eq_empty]
    exact ⟨fun hb => hb.2, fun hb => ⟨hc, hb⟩⟩

/-- C5 fails as stated: on the empty Version both Commit and Tag are empty. -/
theorem toRepoRule_both_empty :
    (toRepoRule id ⟨"a/b", "", false⟩).Commit = "" ∧
      (toRepoRule id ⟨"a/b", "", false⟩).Tag = "" := by
  decide

/-- C6, as the code has it: one trailing `+incompatible` is stripped, so the Tag
returned by `toRepoRule` ends with `+incompatible` exactly when Version ends
with the doubled marker `+incompatible+incompatible`, and for every other
Version it does not end with the marker. -/
theorem toRepoRule_tag_marker_iff (f : String → String) (mod : module) :
    HasSuffix (toRepoRule f mod).Tag incompatible = true ↔
      HasSuffix mod.Version (incompatible ++ incompatible) = true := by
  by_cases h : MatchesMixedVersioning mod.Version
  · rw [(toRepoRule_match f h).2, HasSuffix_empty_incompatible]
    constructor
    · intro hf; cases hf
    · intro hs
      obtain ⟨c, hc⟩ := (HasSuffix_iff _ _).mp hs
      rw [← String.append_assoc] at hc
      rw [hc] at h
      exact absurd h (not_matches_append_incompatible _)
  · rw [(toRepoRule_no_match f h).2]
    exact HasSuffix_TrimSuffix_incompatible _

/-- C6 fails as stated: a Version that carries the marker twice keeps one in
its Tag. -/
theorem toRepoRule_tag_keeps_marker :
    (toRepoRule id ⟨"a/b", "v1.2.3+incompatible+incompatible", false⟩).Tag =
        "v1.2.3+incompatible" ∧
      HasSuffix (toRepoRule id ⟨"a/b", "v1.2.3+incompatible+incompatible", false⟩).Tag
        incompatible = true := by
  decide

/-- C7: `importRepoRulesModules` never returns a partial result. If
`copyGoModToTemp` fails, or `goListModulesFn` fails, or decoding a record fails
after any number of records were decoded, the call returns that error with an
empty rule list; and an error is returned only in one of these three cases. -/
theorem importRepoRulesModules_error_cases (w : World) (filename : String) (fs : FS) :
    (∀ (t : String) (e : GoError) (fs1 : FS),
      copyGoModToTemp w.sys filename fs = ((t, some e), fs1) →
      (importRepoRulesModules w filename fs).1 = ([], some e)) ∧
    (∀ (t : String) (e : GoError) (fs1 fs2 : FS),
      copyGoModToTemp w.sys filename fs = ((t, none), fs1) →
      w.goListModulesFn t fs1 = (.error e, fs2) →
      (importRepoRulesModules w filename fs).1 = ([], some e)) ∧
    (∀ (t : String) (e : GoError) (fs1 fs2 : FS) (data : Bytes) (ms : List module)
      (rest : List (Except GoError module)),
      copyGoModToTemp w.sys filename fs = ((t, none), fs1) →
      w.goListModulesFn t fs1 = (.ok data, fs2) →
      w.decode data = ms.map Except.ok ++ Except.error e :: rest →
      (importRepoRulesModules w filename fs).1 = ([], some e)) ∧
    (∀ e : GoError, (importRepoRulesModules w filename fs).1.2 = some e →
      (importRepoRulesModules w filename fs).1.1 = [] ∧
      ((∃ t fs1, copyGoModToTemp w.sys filename fs = ((t, some e), fs1)) ∨
       (∃ t fs1 fs2, copyGoModToTemp w.sys filename fs = ((t, none), fs1) ∧
          w.goListModulesFn t fs1 = (.error e, fs2)) ∨
       (∃ (t : String) (fs1 fs2 : FS) (data : Bytes) (ms : List module)
          (rest : List (Except GoError module)),
          copyGoModToTemp w.sys filename fs = ((t, none), fs1) ∧
          w.goListModulesFn t fs1 = (.ok data, fs2) ∧
          w.decode data = ms.map Except.ok ++ Except.error e :: rest))) := by
  refine ⟨?_, ?_, ?_, ?_⟩
  · intro t e fs1 hc
    rw [importRepoRulesModules_copy_error w filename fs hc]
  · intro t e fs1 fs2 hc hg
    rw [importRepoRulesModules_list_error w filename fs hc hg]
  · intro t e fs1 fs2 data ms rest hc hg hd
    rw [importRepoRulesModules_decoded w filename fs hc hg, hd, decodeLoop_first_error]
  · intro e he
    rcases hc : copyGoModToTemp w.sys filename fs with ⟨⟨t, oe⟩, fs1⟩
    cases oe with
    | some e1 =>
      rw [importRepoRulesModules_copy_error w filename fs hc] at he ⊢
      cases he
      exact ⟨rfl, Or.inl ⟨t, fs1, rfl⟩⟩
    | none =>
      rcases hg : w.goListModulesFn t fs1 with ⟨r, fs2⟩
      cases r with
      | error e1 =>
        rw [importRepoRulesModules_list_error w filename fs hc hg] at he ⊢
        cases he
        exact ⟨rfl, Or.inr (Or.inl ⟨t, fs1, fs2, rfl, hg⟩)⟩
      | ok data =>
        rw [importRepoRulesModules_decoded w filename fs hc hg] at he ⊢
        obtain ⟨h1, ms, rest, hd⟩ := decodeLoop_error_inv _ e _ _ he
        exact ⟨h1, Or.inr (Or.inr ⟨t, fs1, fs2, data, ms, rest, rfl, hg, hd⟩)⟩

theorem importRepoRulesModules_error_cases_witness :
    (importRepoRulesModules (quietWorld [] brokenStream) "go.mod" oneManifest).1 =
      ([], some ⟨"invalid character"⟩) :=
  (importRepoRulesModules_error_cases (quietWorld [] brokenStream) "go.mod" oneManifest).2.2.1
    "/tmp/gazelle-temp-gomod1" ⟨"invalid character"⟩ copiedFS copiedFS []
    [⟨"a/b", "v1.2.3", false⟩] [.ok ⟨"a/c", "v1.0.0", false⟩] (by decide) rfl rfl

/-- C8 fails on the code: when only the close of the destination file fails,
`copyGoModToTemp` returns the directory name next to the error and leaves the
directory in place, and `importRepoRulesModules` returns that error before its
deferred removal is registered, so the directory outlives the call. -/
theorem copyGoModToTemp_leaks_on_close_error :
    copyGoModToTemp closeFailsWorld.sys "go.mod" oneManifest =
        (("/tmp/gazelle-temp-gomod1", some ⟨"close: input/output error"⟩), copiedFS) ∧
      copiedFS.has "/tmp/gazelle-temp-gomod1" = true ∧
      importRepoRulesModules closeFailsWorld "go.mod" oneManifest =
        (([], some ⟨"close: input/output error"⟩), copiedFS) := by
  decide

/-- C9, as the code has it: when `copyGoModToTemp` succeeds and returns a
temporary directory, `importRepoRulesModules` runs `os.RemoveAll` on it as its
last step on every later exit (the resolver fails, decoding fails, or the call
succeeds), on the state the resolver left, and drops the removal's error; when
that removal does not fail, neither the directory nor any path beneath it
exists in the filesystem state the call leaves. -/
theorem importRepoRulesModules_removes_tempDir (w : World) (filename : String) (fs : FS)
    (tempDir : String) (fs1 : FS)
    (hc : copyGoModToTemp w.sys filename fs = ((tempDir, none), fs1))
    (hr : w.sys.removeAllErr = none) :
    (importRepoRulesModules w filename fs).2 =
        osRemoveAll w.sys (w.goListModulesFn tempDir fs1).2 tempDir ∧
      (importRepoRulesModules w filename fs).2.has tempDir = false ∧
      ∀ p : String, isUnder tempDir p = true →
        (importRepoRulesModules w filename fs).2.has p = false := by
  have hfs : (importRepoRulesModules w filename fs).2 =
      osRemoveAll w.sys (w.goListModulesFn tempDir fs1).2 tempDir := by
    rcases hg : w.goListModulesFn tempDir fs1 with ⟨r, fs2⟩
    cases r with
    | error e => rw [importRepoRulesModules_list_error w filename fs hc hg]
    | ok data => rw [importRepoRulesModules_decoded w filename fs hc hg]
  refine ⟨hfs, ?_, ?_⟩
  · rw [hfs]
    exact has_osRemoveAll _ _ _ _ hr (isUnder_self tempDir)
  · intro p hp
    rw [hfs]
    exact has_osRemoveAll _ _ _ _ hr hp

theorem importRepoRulesModules_removes_tempDir_witness :
    copyGoModToTemp busyWorld.sys "go.mod" oneManifest =
        (("/tmp/gazelle-temp-gomod1", none), copiedFS) ∧
      busyWorld.sys.removeAllErr = none ∧
      (importRepoRulesModules busyWorld "go.mod" oneManifest).2.has
        "/tmp/gazelle-temp-gomod1" = false ∧
      (importRepoRulesModules busyWorld "go.mod" oneManifest).2.has
        "/tmp/gazelle-temp-gomod1/go.sum" = false :=
  ⟨by decide, rfl,
    (importRepoRulesModules_removes_tempDir busyWorld "go.mod" oneManifest
      "/tmp/gazelle-temp-gomod1" copiedFS (by decide) rfl).2.1,
    (importRepoRulesModules_removes_tempDir busyWorld "go.mod" oneManifest
      "/tmp/gazelle-temp-gomod1" copiedFS (by decide) rfl).2.2
      "/tmp/gazelle-temp-gomod1/go.sum" (by decide)⟩

/-- C9 fails as stated: `copyGoModToTemp` succeeds, the resolver and the decoder
succeed, the deferred `os.RemoveAll` fails and its error is dropped, and the
temporary directory still exists when `importRepoRulesModules` has returned
its rules without error. -/
theorem importRepoRulesModules_keeps_tempDir :
    copyGoModToTemp removeAllFailsWorld.sys "go.mod" oneManifest =
        (("/tmp/gazelle-temp-gomod1", none), copiedFS) ∧
      (importRepoRulesModules removeAllFailsWorld "go.mod" oneManifest).1 =
        ([⟨"a/b", "a/b", "", "v1.2.3"⟩, ⟨"a/b/c", "a/b/c", "abcdef123456", ""⟩], none) ∧
      (importRepoRulesModules removeAllFailsWorld "go.mod" oneManifest).2.has
        "/tmp/gazelle-temp-gomod1" = true := by
  decide

/-- C10: a pseudo-version that carries the compatibility marker is classified
as a tag: for every string `p` of the language of `regexMixedVersioning`,
`toRepoRule` on the Version `p ++ "+incompatible"` returns Tag `p` and an
empty Commit. -/
theorem toRepoRule_incompatible_pseudo_version (f : String → String) (path : String)
    (main : Bool) (p : String) (_h : MatchesMixedVersioning p) :
    (toRepoRule f ⟨path, p ++ incompatible, main⟩).Tag = p ∧
      (toRepoRule f ⟨path, p ++ incompatible, main⟩).Commit = "" := by
  have hn : ¬ MatchesMixedVersioning (module.mk path (p ++ incompatible) main).Version :=
    not_matches_append_incompatible p
  obtain ⟨hc, ht⟩ := toRepoRule_no_match f hn
  exact ⟨by rw [ht]; exact TrimSuffix_append _ _, hc⟩

theorem toRepoRule_incompatible_pseudo_version_witness :
    MatchesMixedVersioning "v0.0.0-20210101000000-abcdef123456" ∧
      (toRepoRule id ⟨"a/b/c", "v0.0.0-20210101000000-abcdef123456" ++ incompatible,
        false⟩).Tag = "v0.0.0-20210101000000-abcdef123456" ∧
      (toRepoRule id ⟨"a/b/c", "v0.0.0-20210101000000-abcdef123456" ++ incompatible,
        false⟩).Commit = "" :=
  ⟨matches_sample,
    toRepoRule_incompatible_pseudo_version id "a/b/c" false _ matches_sample⟩

end Gazelle
